import Mathlib

/-!
Verification development for the FRANZ desktop-agent program (`madafak.py`).

The Python source is shallowly embedded: pure functions become Lean
functions over `ℚ` (Python floats are idealized as exact rationals),
`ℤ` and `ℕ`; the control loop becomes an explicit labelled transition
system; the step body's exception routing becomes a function from
failure flags to a step outcome.  `zlib.compress` is an external
library call and is modelled as an explicit function parameter.
-/

/-- Python `int(q)`: truncation toward zero (floor for nonnegative
arguments, ceiling for negative ones), computed as the truncated
division of the reduced numerator by the denominator. -/
def pyTrunc (q : ℚ) : ℤ :=
  q.num.tdiv q.den

theorem pyTrunc_of_nonneg {q : ℚ} (h : 0 ≤ q) : pyTrunc q = ⌊q⌋ := by
  unfold pyTrunc
  rw [Rat.floor_def]
  exact Int.tdiv_eq_ediv (Rat.num_nonneg.mpr h) (Int.ofNat_nonneg _)

theorem pyTrunc_of_neg {q : ℚ} (h : q < 0) : pyTrunc q = ⌈q⌉ := by
  unfold pyTrunc
  have hceil : ⌈q⌉ = -⌊-q⌋ := by rw [Int.floor_neg]; ring
  rw [hceil, Rat.floor_def, Rat.num_neg_eq_neg_num, Rat.den_neg_eq_den]
  have hnum : q.num.tdiv q.den = -((-q.num).tdiv q.den) := by
    rw [Int.neg_tdiv, neg_neg]
  rw [hnum, Int.tdiv_eq_ediv
    (show (0:ℤ) ≤ -q.num by
      rw [Int.neg_nonneg]
      exact le_of_lt (Rat.num_neg.mpr h))
    (Int.ofNat_nonneg _)]

theorem pyTrunc_zero : pyTrunc 0 = 0 := by
  rw [pyTrunc_of_nonneg le_rfl]
  simp

theorem pyTrunc_natCast (n : ℕ) : pyTrunc (n : ℚ) = n := by
  rw [pyTrunc_of_nonneg (by positivity), Int.floor_natCast]

theorem pyTrunc_nonneg {q : ℚ} (h : 0 ≤ q) : 0 ≤ pyTrunc q := by
  rw [pyTrunc_of_nonneg h]
  exact Int.floor_nonneg.mpr h

theorem pyTrunc_le_of_le {q : ℚ} {n : ℤ} (h0 : 0 ≤ q) (h : q ≤ (n : ℚ)) :
    pyTrunc q ≤ n := by
  rw [pyTrunc_of_nonneg h0]
  calc ⌊q⌋ ≤ ⌊(n : ℚ)⌋ := Int.floor_le_floor h
    _ = n := Int.floor_intCast n

-- ------------------------------------------------------------------
-- Sampling profiles (`get_sampling_config`, madafak.py lines 56-78)
-- ------------------------------------------------------------------

/-- `MODE_OBSERVATION = 0` in the source. -/
def MODE_OBSERVATION : ℕ := 0

/-- `MODE_EXECUTION = 1` in the source. -/
def MODE_EXECUTION : ℕ := 1

/-- The record of generation-control parameters returned by
`get_sampling_config`. -/
structure SamplingConfig where
  temperature : ℚ
  top_p : ℚ
  top_k : ℕ
  presence_penalty : ℚ
  frequency_penalty : ℚ
  repeat_penalty : ℚ
  max_tokens : ℕ
  min_completion_tokens : ℕ
  deriving DecidableEq

/-- Embedding of `get_sampling_config(mode)`: the observation profile
when `mode == MODE_OBSERVATION`, the execution profile otherwise. -/
def get_sampling_config (mode : ℕ) : SamplingConfig :=
  if mode = MODE_OBSERVATION then
    { temperature := 1.8, top_p := 0.90, top_k := 40,
      presence_penalty := 0.0, frequency_penalty := 0.0,
      repeat_penalty := 1.10, max_tokens := 600,
      min_completion_tokens := 120 }
  else
    { temperature := 0.8, top_p := 0.75, top_k := 20,
      presence_penalty := 0.0, frequency_penalty := 0.0,
      repeat_penalty := 1.20, max_tokens := 600,
      min_completion_tokens := 120 }

-- ------------------------------------------------------------------
-- Coordinate mapping (`Coord.to_screen`, madafak.py lines 502-517)
-- ------------------------------------------------------------------

/-- The `Coord` dataclass: physical screen dimensions. -/
structure Coord where
  sw : ℕ
  sh : ℕ

/-- One axis of `Coord.to_screen`:
`int(max(0.0, min(1000.0, v)) * dim / 1000)`. -/
def toScreen1 (dim : ℕ) (v : ℚ) : ℤ :=
  pyTrunc (max 0 (min 1000 v) * dim / 1000)

/-- Embedding of `Coord.to_screen(x, y)`. -/
def Coord.to_screen (c : Coord) (x y : ℚ) : ℤ × ℤ :=
  (toScreen1 c.sw x, toScreen1 c.sh y)

theorem toScreen1_nonneg (dim : ℕ) (v : ℚ) : 0 ≤ toScreen1 dim v := by
  apply pyTrunc_nonneg
  apply div_nonneg _ (by norm_num)
  apply mul_nonneg (le_max_left 0 _) (Nat.cast_nonneg dim)

theorem toScreen1_le (dim : ℕ) (v : ℚ) : toScreen1 dim v ≤ dim := by
  apply pyTrunc_le_of_le
  · apply div_nonneg _ (by norm_num)
    exact mul_nonneg (le_max_left 0 _) (Nat.cast_nonneg dim)
  · rw [div_le_iff₀ (by norm_num : (0:ℚ) < 1000)]
    push_cast
    have hv : max 0 (min 1000 v) ≤ 1000 := by
      apply max_le (by norm_num)
      exact min_le_left 1000 v
    calc max 0 (min 1000 v) * (dim : ℚ) ≤ 1000 * dim := by
          exact mul_le_mul_of_nonneg_right hv (Nat.cast_nonneg dim)
      _ = (dim : ℚ) * 1000 := by ring

theorem toScreen1_zero (dim : ℕ) : toScreen1 dim 0 = 0 := by
  unfold toScreen1
  have h : max (0:ℚ) (min 1000 0) * dim / 1000 = 0 := by norm_num
  rw [h, pyTrunc_zero]

theorem toScreen1_thousand (dim : ℕ) : toScreen1 dim 1000 = dim := by
  unfold toScreen1
  have h1 : max (0:ℚ) (min 1000 1000) = 1000 := by norm_num
  rw [h1]
  have h2 : (1000 : ℚ) * dim / 1000 = (dim : ℚ) := by
    field_simp
  rw [h2, pyTrunc_natCast]

-- ------------------------------------------------------------------
-- Scroll (`scroll`, madafak.py lines 607-610)
-- ------------------------------------------------------------------

/-- `WHEEL_DELTA = 120`. -/
def WHEEL_DELTA : ℤ := 120

/-- `ticks = max(1, int(abs(dy) / 120))`. -/
def scrollTicks (dy : ℚ) : ℕ :=
  (max 1 (pyTrunc (|dy| / 120))).toNat

/-- `direction = 1 if dy > 0 else -1`. -/
def scrollDirection (dy : ℚ) : ℤ :=
  if 0 < dy then 1 else -1

/-- Embedding of `scroll(dy)`: the list of signed wheel deltas
(`WHEEL_DELTA * direction`) of the emitted wheel events, one per tick. -/
def scrollEvents (dy : ℚ) : List ℤ :=
  List.replicate (scrollTicks dy) (WHEEL_DELTA * scrollDirection dy)

-- ------------------------------------------------------------------
-- Main-loop step body: exception routing (madafak.py lines 1220-1252)
-- ------------------------------------------------------------------

/-- Outcome of one iteration of the main `while` loop body. -/
inductive StepOutcome where
  | ok : StepOutcome
  | backoff : StepOutcome
  | fatal : StepOutcome
  deriving DecidableEq

/-- Embedding of the exception routing of one iteration of `main`'s
loop body.  `capture_screen` and the diagnostic dump write run before
the `try` block, so a raise there escapes the loop (`fatal`); the
decision call (`call_vlm`), report publishing and actuation run inside
`try ... except`, whose handler logs and sleeps 2.0 s (`backoff`).
`observeOnly` is true when the chosen tool is `"observe"` (no
actuation is attempted). -/
def loopBody (captureOk dumpOk vlmOk actOk observeOnly : Bool) : StepOutcome :=
  if !captureOk then .fatal
  else if !dumpOk then .fatal
  else if !vlmOk then .backoff
  else if !observeOnly && !actOk then .backoff
  else .ok

/-- Claim C1, counterexample: a step in which `capture_screen` raises
(all later stages would have succeeded) ends in `fatal`, not in the
logged back-off continuation that decision-service failures get — so a
capture failure is not treated with the same step-local recovery
policy. -/
theorem c1_counterexample :
    loopBody false true true true false = StepOutcome.fatal ∧
    loopBody true true false true false = StepOutcome.backoff ∧
    StepOutcome.fatal ≠ StepOutcome.backoff := by
  refine ⟨rfl, rfl, ?_⟩
  intro h
  exact StepOutcome.noConfusion h

/-- Claim C1 (amended): a `capture_screen` (or diagnostic-dump) failure
escapes the `try` block of the loop body and is fatal to the process;
only decision-service failures and actuation failures are caught at
the step boundary and continue the loop after the fixed back-off. -/
theorem c1_amended :
    ∀ (d v a o : Bool),
      loopBody false d v a o = StepOutcome.fatal ∧
      loopBody true false v a o = StepOutcome.fatal ∧
      loopBody true true false a o = StepOutcome.backoff ∧
      loopBody true true true false false = StepOutcome.backoff ∧
      loopBody true true true a true = StepOutcome.ok ∧
      loopBody true true true true o = StepOutcome.ok := by
  decide

-- ------------------------------------------------------------------
-- Control-loop state machine (madafak.py lines 904-914, 1117-1119,
-- 1213-1252): pause/mode toggles, step phases
-- ------------------------------------------------------------------

/-- Program position of the ControlLoop thread inside `main`'s `while`
loop: at the pause/stop check (`hud.wait_for_resume()` plus the
`stop_event` test), or inside one of the strictly sequential stages of
a step, or exited. -/
inductive Phase where
  | check : Phase
  | capture : Phase
  | decide : Phase
  | act : Phase
  | done : Phase
  deriving DecidableEq

/-- Shared control state: loop position plus the HUD flags `paused`,
`stop_event` and `mode`, and the step counter. -/
structure LoopState where
  phase : Phase
  paused : Bool
  stopped : Bool
  mode : ℕ
  step : ℕ
  deriving DecidableEq

/-- Transition labels: operator-originated HUD events and the
ControlLoop thread's own moves. -/
inductive LoopEvent where
  | opTogglePause : LoopEvent
  | opToggleMode : LoopEvent
  | opClose : LoopEvent
  | enterStep : LoopEvent
  | doCapture : LoopEvent
  | doDecide : LoopEvent
  | doAct : LoopEvent
  | exitLoop : LoopEvent
  deriving DecidableEq

/-- Labelled transition relation of the two cooperating threads.
Operator events (`_wndproc`: the PAUSE/RESUME button, the mode button,
`WM_CLOSE`) may fire in any state and only mutate the shared flags.
The ControlLoop thread leaves `check` only via `exitLoop` (when
`stop_event` is set; `wait_for_resume` returns and the `break` fires)
or via `enterStep` (when not stopped and not paused; `wait_for_resume`
returns and the loop body begins a step), and then runs the step
stages capture → decide → act in order, unconditionally, back to the
check. -/
inductive LoopTrans : LoopState → LoopEvent → LoopState → Prop where
  | opTogglePause (s : LoopState) :
      LoopTrans s .opTogglePause { s with paused := !s.paused }
  | opToggleMode (s : LoopState) :
      LoopTrans s .opToggleMode
        { s with mode := if s.mode = MODE_OBSERVATION then MODE_EXECUTION else MODE_OBSERVATION }
  | opClose (s : LoopState) :
      LoopTrans s .opClose { s with stopped := true }
  | exitLoop (s : LoopState) (h1 : s.phase = .check) (h2 : s.stopped = true) :
      LoopTrans s .exitLoop { s with phase := .done }
  | enterStep (s : LoopState) (h1 : s.phase = .check) (h2 : s.stopped = false)
      (h3 : s.paused = false) :
      LoopTrans s .enterStep { s with phase := .capture, step := s.step + 1 }
  | doCapture (s : LoopState) (h : s.phase = .capture) :
      LoopTrans s .doCapture { s with phase := .decide }
  | doDecide (s : LoopState) (h : s.phase = .decide) :
      LoopTrans s .doDecide { s with phase := .act }
  | doAct (s : LoopState) (h : s.phase = .act) :
      LoopTrans s .doAct { s with phase := .check }

/-- Claim C4: (1) while paused (and not stopped) the loop cannot leave
the pause check, so no capture, decision call or actuation begins;
(2) the only way into a step is the `enterStep` transition from the
pause check with `paused = false` — a pause check precedes every step
boundary and steps are entered only while Running; (3) operator
toggles never move the loop position, and (4) each in-step stage
proceeds regardless of the `paused` flag — the operator can halt the
loop only between steps, never mid-step. -/
theorem c4_pause_gates_steps :
    (∀ (s : LoopState) (e : LoopEvent) (s' : LoopState), LoopTrans s e s' →
      s.phase = .check → s.paused = true → s.stopped = false → s'.phase = .check) ∧
    (∀ (s : LoopState) (e : LoopEvent) (s' : LoopState), LoopTrans s e s' →
      s.phase ≠ .capture → s'.phase = .capture →
      e = .enterStep ∧ s.phase = .check ∧ s.paused = false ∧ s.stopped = false) ∧
    (∀ (s : LoopState) (e : LoopEvent) (s' : LoopState), LoopTrans s e s' →
      (e = .opTogglePause ∨ e = .opToggleMode) → s'.phase = s.phase) ∧
    (∀ s : LoopState, s.phase = .decide →
      LoopTrans s .doDecide { s with phase := .act }) := by
  refine ⟨?_, ?_, ?_, ?_⟩
  · intro s e s' ht hc hp hs
    cases ht with
    | opTogglePause => exact hc
    | opToggleMode => exact hc
    | opClose => exact hc
    | exitLoop h1 h2 => rw [h2] at hs; exact absurd hs (by simp)
    | enterStep h1 h2 h3 => rw [h3] at hp; exact absurd hp (by simp)
    | doCapture h => rw [hc] at h; exact absurd h (by simp)
    | doDecide h => rw [hc] at h; exact absurd h (by simp)
    | doAct h => rw [hc] at h
  · intro s e s' ht hne hcap
    cases ht with
    | opTogglePause => exact absurd hcap hne
    | opToggleMode => exact absurd hcap hne
    | opClose => exact absurd hcap hne
    | exitLoop h1 h2 => exact absurd hcap (by simp)
    | enterStep h1 h2 h3 => exact ⟨rfl, h1, h3, h2⟩
    | doCapture h => exact absurd hcap (by simp)
    | doDecide h => exact absurd hcap (by simp)
    | doAct h => exact absurd hcap (by simp)
  · intro s e s' ht he
    cases ht with
    | opTogglePause => rfl
    | opToggleMode => rfl
    | opClose => exact absurd he (by simp)
    | exitLoop h1 h2 => exact absurd he (by simp)
    | enterStep h1 h2 h3 => exact absurd he (by simp)
    | doCapture h => exact absurd he (by simp)
    | doDecide h => exact absurd he (by simp)
    | doAct h => exact absurd he (by simp)
  · intro s h
    exact LoopTrans.doDecide s h

/-- Claim C4, witness: a pause toggle fired while the loop is at the
pause check with `paused = true` leaves the loop at the check. -/
theorem c4_pause_gates_steps_witness :
    (⟨Phase.check, false, false, 0, 0⟩ : LoopState).phase = Phase.check :=
  c4_pause_gates_steps.1 ⟨Phase.check, true, false, 0, 0⟩ LoopEvent.opTogglePause
    ⟨Phase.check, false, false, 0, 0⟩ (LoopTrans.opTogglePause _) rfl rfl rfl

-- ------------------------------------------------------------------
-- Claim theorems: sampling profiles, coordinates, scroll
-- ------------------------------------------------------------------

/-- Claim C6: `get_sampling_config` depends only on whether its mode
argument is `MODE_OBSERVATION`; the Observation profile has strictly
higher temperature, top-p and top-k and a strictly milder repetition
penalty than the Execution profile; both profiles share the same
`max_tokens` and `min_completion_tokens` limits. -/
theorem c6_sampling_pure_and_diverse :
    (∀ m m' : ℕ, (m = MODE_OBSERVATION ↔ m' = MODE_OBSERVATION) →
      get_sampling_config m = get_sampling_config m') ∧
    (get_sampling_config MODE_OBSERVATION).temperature >
      (get_sampling_config MODE_EXECUTION).temperature ∧
    (get_sampling_config MODE_OBSERVATION).top_p >
      (get_sampling_config MODE_EXECUTION).top_p ∧
    (get_sampling_config MODE_OBSERVATION).top_k >
      (get_sampling_config MODE_EXECUTION).top_k ∧
    (get_sampling_config MODE_OBSERVATION).repeat_penalty <
      (get_sampling_config MODE_EXECUTION).repeat_penalty ∧
    (get_sampling_config MODE_OBSERVATION).max_tokens =
      (get_sampling_config MODE_EXECUTION).max_tokens ∧
    (get_sampling_config MODE_OBSERVATION).min_completion_tokens =
      (get_sampling_config MODE_EXECUTION).min_completion_tokens := by
  refine ⟨?_, ?_, ?_, ?_, ?_, rfl, rfl⟩
  · intro m m' h
    unfold get_sampling_config
    by_cases hm : m = MODE_OBSERVATION
    · rw [if_pos hm, if_pos (h.mp hm)]
    · rw [if_neg hm, if_neg (fun hm' => hm (h.mpr hm'))]
  · norm_num [get_sampling_config, MODE_OBSERVATION, MODE_EXECUTION]
  · norm_num [get_sampling_config, MODE_OBSERVATION, MODE_EXECUTION]
  · norm_num [get_sampling_config, MODE_OBSERVATION, MODE_EXECUTION]
  · norm_num [get_sampling_config, MODE_OBSERVATION, MODE_EXECUTION]

/-- Claim C6, witness: two arbitrary non-observation modes select the
same profile. -/
theorem c6_sampling_pure_and_diverse_witness :
    get_sampling_config 5 = get_sampling_config 7 :=
  c6_sampling_pure_and_diverse.1 5 7
    (by constructor <;> (intro h; exact absurd h (by decide)))

/-- Claim C3, counterexample: with a 10×10 screen,
`to_screen(1000, 1000)` evaluates to `(10, 10)`, which does not lie in
the screen space `[0, screen_w) × [0, screen_h)`. -/
theorem c3_counterexample :
    (Coord.mk 10 10).to_screen 1000 1000 = ((10 : ℤ), (10 : ℤ)) ∧
    ¬ (((Coord.mk 10 10).to_screen 1000 1000).1 < (10 : ℤ) ∧
       ((Coord.mk 10 10).to_screen 1000 1000).2 < (10 : ℤ)) := by
  have h : (Coord.mk 10 10).to_screen 1000 1000 = ((10 : ℤ), (10 : ℤ)) := by
    unfold Coord.to_screen
    rw [toScreen1_thousand]
    norm_num
  refine ⟨h, ?_⟩
  rw [h]
  simp

/-- Claim C3 (amended): for every positive screen size, `to_screen`
clamps to [0,1000], scales by `screen_dim/1000` and truncates; both
result components lie in the closed ranges `[0, screen_w]` and
`[0, screen_h]` (the value `screen_w` itself is reached at x = 1000);
`to_screen(0,0) = (0,0)`; `to_screen(1000,1000) = (screen_w, screen_h)`,
within one pixel of `(screen_w - 1, screen_h - 1)`; out-of-range
inputs are clamped before scaling. -/
theorem c3_amended (c : Coord) (x y : ℚ) (hw : 0 < c.sw) (hh : 0 < c.sh) :
    (0 ≤ (c.to_screen x y).1 ∧ (c.to_screen x y).1 ≤ c.sw ∧
     0 ≤ (c.to_screen x y).2 ∧ (c.to_screen x y).2 ≤ c.sh) ∧
    c.to_screen x y = c.to_screen (max 0 (min 1000 x)) (max 0 (min 1000 y)) ∧
    c.to_screen 0 0 = ((0 : ℤ), (0 : ℤ)) ∧
    c.to_screen 1000 1000 = ((c.sw : ℤ), (c.sh : ℤ)) ∧
    |(c.to_screen 1000 1000).1 - ((c.sw : ℤ) - 1)| ≤ 1 ∧
    |(c.to_screen 1000 1000).2 - ((c.sh : ℤ) - 1)| ≤ 1 := by
  refine ⟨⟨toScreen1_nonneg _ _, toScreen1_le _ _, toScreen1_nonneg _ _, toScreen1_le _ _⟩,
    ?_, ?_, ?_, ?_, ?_⟩
  · unfold Coord.to_screen toScreen1
    have hx : max 0 (min 1000 (max 0 (min 1000 x))) = max 0 (min 1000 x) := by
      rcases le_total x 1000 with h | h
      · rcases le_total x 0 with h0 | h0
        · simp [min_eq_right h, max_eq_left h0]
        · rw [min_eq_right h]
          rcases le_total 0 x with _ | _
          · rw [max_eq_right h0, min_eq_right h, max_eq_right h0]
          · rw [max_eq_right h0, min_eq_right h, max_eq_right h0]
      · rw [min_eq_left h]
        norm_num
    have hy : max 0 (min 1000 (max 0 (min 1000 y))) = max 0 (min 1000 y) := by
      rcases le_total y 1000 with h | h
      · rcases le_total y 0 with h0 | h0
        · simp [min_eq_right h, max_eq_left h0]
        · rw [min_eq_right h, max_eq_right h0, min_eq_right h, max_eq_right h0]
      · rw [min_eq_left h]
        norm_num
    rw [hx, hy]
  · unfold Coord.to_screen
    rw [toScreen1_zero, toScreen1_zero]
  · unfold Coord.to_screen
    rw [toScreen1_thousand]
    rw [toScreen1_thousand]
  · unfold Coord.to_screen
    rw [toScreen1_thousand]
    rw [toScreen1_thousand]
    simp
  · unfold Coord.to_screen
    rw [toScreen1_thousand]
    rw [toScreen1_thousand]
    simp

/-- Claim C3, witness: the amended theorem instantiated at a 10×10
screen and the in-range input (500, 250). -/
theorem c3_amended_witness :
    0 < (Coord.mk 10 10).sw ∧
    (0 ≤ ((Coord.mk 10 10).to_screen 500 250).1 ∧
     ((Coord.mk 10 10).to_screen 500 250).1 ≤ (Coord.mk 10 10).sw ∧
     0 ≤ ((Coord.mk 10 10).to_screen 500 250).2 ∧
     ((Coord.mk 10 10).to_screen 500 250).2 ≤ (Coord.mk 10 10).sh) :=
  ⟨by norm_num, (c3_amended (Coord.mk 10 10) 500 250 (by norm_num) (by norm_num)).1⟩

/-- Auxiliary: `Int.toNat` commutes with `max 1` on nonnegative
integers. -/
theorem toNat_max_one {z : ℤ} (h : 0 ≤ z) : (max 1 z).toNat = max 1 z.toNat := by
  omega

/-- Claim C10: `scroll(dy)` emits exactly `max(1, floor(|dy|/120))`
wheel events, each of one tick (`WHEEL_DELTA = 120`), upward
(positive) when `dy > 0` and downward (negative) otherwise; in
particular `scroll(0)` emits exactly one downward tick. -/
theorem c10_scroll :
    (∀ dy : ℚ, scrollEvents dy =
      List.replicate (max 1 (⌊|dy| / 120⌋).toNat)
        (if 0 < dy then (120 : ℤ) else (-120 : ℤ))) ∧
    scrollEvents 0 = [(-120 : ℤ)] := by
  have key : ∀ dy : ℚ, scrollEvents dy =
      List.replicate (max 1 (⌊|dy| / 120⌋).toNat)
        (if 0 < dy then (120 : ℤ) else (-120 : ℤ)) := by
    intro dy
    unfold scrollEvents scrollTicks scrollDirection WHEEL_DELTA
    have habs : (0 : ℚ) ≤ |dy| / 120 := by positivity
    rw [pyTrunc_of_nonneg habs]
    rw [toNat_max_one (Int.floor_nonneg.mpr habs)]
    by_cases h : 0 < dy
    · rw [if_pos h, if_pos h]
      norm_num
    · rw [if_neg h, if_neg h]
      norm_num
  refine ⟨key, ?_⟩
  rw [key 0]
  norm_num

-- ------------------------------------------------------------------
-- PNG encoder (`encode_png`, madafak.py lines 744-769)
-- ------------------------------------------------------------------

/-- `struct.pack(">I", n)`: 4 big-endian bytes. -/
def be32 (n : ℕ) : List ℕ :=
  [n / 2 ^ 24 % 256, n / 2 ^ 16 % 256, n / 2 ^ 8 % 256, n % 256]

/-- One bit-round of the reflected CRC-32 with polynomial
`0xEDB88320`, the polynomial of `zlib.crc32`. -/
def crc32round (c : ℕ) : ℕ :=
  if c % 2 = 1 then Nat.xor 0xEDB88320 (c / 2) else c / 2

/-- Fold one byte into a CRC-32 accumulator (eight bit-rounds). -/
def crc32byte (c b : ℕ) : ℕ :=
  crc32round^[8] (Nat.xor c b)

/-- Model of `zlib.crc32(data) & 0xFFFFFFFF`: the standard CRC-32 with
initial value and final value complemented. -/
def crc32 (data : List ℕ) : ℕ :=
  Nat.xor (data.foldl crc32byte 0xFFFFFFFF) 0xFFFFFFFF

/-- The fixed 8-byte PNG signature `b"\x89PNG\r\n\x1a\n"`. -/
def pngSig : List ℕ := [137, 80, 78, 71, 13, 10, 26, 10]

/-- The ASCII bytes of the tag `b"IHDR"`. -/
def tagIHDR : List ℕ := [73, 72, 68, 82]

/-- The ASCII bytes of the tag `b"IDAT"`. -/
def tagIDAT : List ℕ := [73, 68, 65, 84]

/-- The ASCII bytes of the tag `b"IEND"`. -/
def tagIEND : List ℕ := [73, 69, 78, 68]

/-- The local `chunk` helper of `encode_png`: big-endian length, tag,
payload, CRC-32 over tag plus payload. -/
def pngChunk (tag data : List ℕ) : List ℕ :=
  be32 data.length ++ tag ++ data ++ be32 (crc32 (tag ++ data))

/-- `struct.pack(">2I5B", width, height, 8, 2, 0, 0, 0)`: the IHDR
payload — width, height, bit depth 8, color type 2 (RGB), and zero
compression/filter/interlace method bytes. -/
def ihdrData (width height : ℕ) : List ℕ :=
  be32 width ++ be32 height ++ [8, 2, 0, 0, 0]

/-- Byte `i` of the `raw` buffer that `encode_png` fills: the buffer
has `height` stretches of `width*3 + 1` bytes; within a stretch,
offset 0 is the filter byte `0`, and offset `p ≥ 1` holds channel
`(p-1) % 3` of pixel `(p-1) / 3`, read from the BGRA source at channel
index `2 - (p-1) % 3` (RGB reorder). -/
def rawByte (bgra : List ℕ) (width i : ℕ) : ℕ :=
  let stride := width * 3 + 1
  let y := i / stride
  let p := i % stride
  if p = 0 then 0
  else bgra.getD (y * width * 4 + ((p - 1) / 3) * 4 + (2 - (p - 1) % 3)) 0

/-- The `raw` bytearray of `encode_png`, as a flat byte list of length
`(width*3 + 1) * height`. -/
def pngRaw (bgra : List ℕ) (width height : ℕ) : List ℕ :=
  (List.range ((width * 3 + 1) * height)).map (rawByte bgra width)

/-- Embedding of `encode_png(bgra, width, height)`.  `compress` stands
for the external `zlib.compress(·, 6)` (deflate at fixed level 6),
which is a fixed function of its input byte string. -/
def encode_png (compress : List ℕ → List ℕ) (bgra : List ℕ) (width height : ℕ) : List ℕ :=
  pngSig
    ++ pngChunk tagIHDR (ihdrData width height)
    ++ pngChunk tagIDAT (compress (pngRaw bgra width height))
    ++ pngChunk tagIEND []

/-- The RGB bytes of pixel `(x, y)` as the spec describes them: alpha
dropped, channels reordered BGRA → RGB. -/
def rowRGB (bgra : List ℕ) (width y x : ℕ) : List ℕ :=
  [bgra.getD (y * width * 4 + x * 4 + 2) 0,
   bgra.getD (y * width * 4 + x * 4 + 1) 0,
   bgra.getD (y * width * 4 + x * 4) 0]

/-- A scanline as the spec describes it: a single zero "no filter"
byte followed by the `width` RGB pixel triples. -/
def filteredRow (bgra : List ℕ) (width y : ℕ) : List ℕ :=
  0 :: ((List.range width).map (rowRGB bgra width y)).flatten

/-- The serialized rows as the spec describes them: the `height`
filtered scanlines concatenated. -/
def pngRawRows (bgra : List ℕ) (width height : ℕ) : List ℕ :=
  ((List.range height).map (filteredRow bgra width)).flatten

/-- The PNG byte stream as the spec describes it (the refinement
target for claim C9): signature, IHDR chunk, one IDAT chunk holding
the compressed filtered rows, and a zero-length IEND chunk. -/
def encode_png_layout (compress : List ℕ → List ℕ) (bgra : List ℕ)
    (width height : ℕ) : List ℕ :=
  pngSig
    ++ pngChunk tagIHDR (ihdrData width height)
    ++ pngChunk tagIDAT (compress (pngRawRows bgra width height))
    ++ pngChunk tagIEND []

/-- Flattening a rectangular nested `range` map is the same as mapping
over a flat `range` with div/mod index decomposition. -/
theorem flatten_map_range {α : Type} (g : ℕ → ℕ → α) (n m : ℕ) (hm : 0 < m) :
    ((List.range n).map (fun y => (List.range m).map (g y))).flatten
      = (List.range (n * m)).map (fun i => g (i / m) (i % m)) := by
  induction n with
  | zero => simp
  | succ n ih =>
    rw [List.range_succ, List.map_append, List.flatten_append, ih]
    have hr : List.range ((n + 1) * m) = List.range (n * m) ++ (List.range m).map (n * m + ·) := by
      rw [Nat.succ_mul, List.range_add]
    rw [hr, List.map_append]
    congr 1
    simp only [List.map_cons, List.map_nil, List.flatten_cons, List.flatten_nil,
      List.append_nil, List.map_map]
    apply List.map_congr_left
    intro j hj
    rw [List.mem_range] at hj
    have h1 : (n * m + j) / m = n := by
      rw [Nat.add_comm, Nat.add_mul_div_right _ _ hm, Nat.div_eq_of_lt hj, Nat.zero_add]
    have h2 : (n * m + j) % m = j := by
      rw [Nat.add_comm, Nat.add_mul_mod_self_right, Nat.mod_eq_of_lt hj]
    simp only [Function.comp_apply, h1, h2]

/-- A pixel triple is a map over `range 3` of the channel selector. -/
theorem rowRGB_eq_map (bgra : List ℕ) (width y x : ℕ) :
    rowRGB bgra width y x
      = (List.range 3).map (fun c => bgra.getD (y * width * 4 + x * 4 + (2 - c)) 0) := by
  rfl

/-- One filtered scanline, as a map over the flat within-row offset. -/
theorem filteredRow_eq_map (bgra : List ℕ) (width y : ℕ) :
    filteredRow bgra width y
      = (List.range (width * 3 + 1)).map (fun p =>
          if p = 0 then 0
          else bgra.getD (y * width * 4 + ((p - 1) / 3) * 4 + (2 - (p - 1) % 3)) 0) := by
  unfold filteredRow
  have htrip : (List.range width).map (rowRGB bgra width y)
      = (List.range width).map (fun x => (List.range 3).map
          (fun c => bgra.getD (y * width * 4 + x * 4 + (2 - c)) 0)) :=
    List.map_congr_left (fun x _ => rowRGB_eq_map bgra width y x)
  rw [htrip, flatten_map_range _ width 3 (by norm_num)]
  rw [List.range_succ_eq_map, List.map_cons, List.map_map]
  rfl

/-- The imperative flat fill of `raw` equals the row-by-row
description: filter byte then RGB triples, scanline after scanline. -/
theorem pngRaw_eq_rows (bgra : List ℕ) (width height : ℕ) :
    pngRaw bgra width height = pngRawRows bgra width height := by
  have hstride : 0 < width * 3 + 1 := Nat.succ_pos _
  unfold pngRawRows
  have hrows : (List.range height).map (filteredRow bgra width)
      = (List.range height).map (fun y => (List.range (width * 3 + 1)).map (fun p =>
          if p = 0 then 0
          else bgra.getD (y * width * 4 + ((p - 1) / 3) * 4 + (2 - (p - 1) % 3)) 0)) :=
    List.map_congr_left (fun y _ => filteredRow_eq_map bgra width y)
  rw [hrows, flatten_map_range _ height (width * 3 + 1) hstride]
  unfold pngRaw
  rw [Nat.mul_comm (width * 3 + 1) height]
  rfl

/-- Claim C5: the encoder is deterministic — byte-identical BGRA input
buffers of the same width and height produce byte-identical output
(for the fixed deflate function modelling `zlib.compress(·, 6)`). -/
theorem c5_encoder_deterministic (compress : List ℕ → List ℕ)
    (b1 b2 : List ℕ) (width height : ℕ) (h : b1 = b2) :
    encode_png compress b1 width height = encode_png compress b2 width height := by
  rw [h]

/-- Claim C5, witness: the determinism theorem applied to two copies
of a concrete 1×1 BGRA buffer. -/
theorem c5_encoder_deterministic_witness :
    encode_png id [1, 2, 3, 255] 1 1 = encode_png id [1, 2, 3, 255] 1 1 :=
  c5_encoder_deterministic id [1, 2, 3, 255] [1, 2, 3, 255] 1 1 rfl

/-- Claim C9: the encoder output is exactly the fixed 8-byte PNG
signature, an IHDR chunk declaring width, height, bit depth 8 and RGB
color type, an IDAT chunk holding the deflate compression of the rows
each prefixed by a zero "no filter" byte with alpha dropped and BGRA
reordered to RGB, and a zero-length IEND chunk, each chunk framed as
big-endian length, 4-byte tag, payload and CRC-32 over tag plus
payload. -/
theorem c9_png_layout (compress : List ℕ → List ℕ) (bgra : List ℕ)
    (width height : ℕ) :
    encode_png compress bgra width height
      = encode_png_layout compress bgra width height := by
  unfold encode_png encode_png_layout
  rw [pngRaw_eq_rows]


-- ------------------------------------------------------------------
-- Report publishing (madafak.py lines 772-812, 1234-1241)
-- ------------------------------------------------------------------

/-- The argument object of a successful decision response, restricted
to its text-valued fields.  `call_vlm` returns it unvalidated; the
main loop reads only the `report` field. -/
def publishedReport (args : List (String × String)) : String :=
  (args.lookup "report").getD ""

/-- Claim C7, counterexample: a step whose decision call succeeds but
whose argument object carries no `report` field publishes the empty
string to the operator surface — the published report can be empty. -/
theorem c7_counterexample :
    publishedReport [] = "" ∧ ¬ (publishedReport [] ≠ "") :=
  ⟨rfl, fun h => h rfl⟩

/-- Claim C7 (amended): the text published to the operator surface is
exactly the `report` field of the decided Action whenever the decision
service supplies one (`args.get("report", "")`), and is the empty
string when the field is absent; the code does not enforce that the
report is non-empty. -/
theorem c7_amended :
    (∀ (args : List (String × String)) (s : String),
      args.lookup "report" = some s → publishedReport args = s) ∧
    publishedReport [] = "" := by
  constructor
  · intro args s h
    unfold publishedReport
    rw [h]
    rfl
  · rfl

/-- Claim C7, witness: a response that does carry a report publishes
exactly that report. -/
theorem c7_amended_witness :
    publishedReport [("report", "Recently: ...")] = "Recently: ..." :=
  c7_amended.1 [("report", "Recently: ...")] "Recently: ..." rfl

-- ------------------------------------------------------------------
-- Downsampling (`downsample`, madafak.py lines 654-741)
-- ------------------------------------------------------------------

/-- `x_scale = sw / dw` (and `y_scale = sh / dh`). -/
def scaleQ (srcDim dstDim : ℕ) : ℚ :=
  (srcDim : ℚ) / (dstDim : ℚ)

/-- `cx = (dx + 0.5) * x_scale - 0.5`: pixel-center mapping of
destination index `i` to a continuous source coordinate. -/
def centerQ (srcDim dstDim i : ℕ) : ℚ :=
  ((i : ℚ) + 1 / 2) * scaleQ srcDim dstDim - 1 / 2

/-- `x_start = max(0, int(cx - radius))` with `radius = 3`. -/
def winStart (srcDim dstDim i : ℕ) : ℤ :=
  max 0 (pyTrunc (centerQ srcDim dstDim i - 3))

/-- `x_end = min(sw, int(cx + radius) + 1)` with `radius = 3`. -/
def winEnd (srcDim dstDim i : ℕ) : ℤ :=
  min (srcDim : ℤ) (pyTrunc (centerQ srcDim dstDim i + 3) + 1)

/-- `range(a, b)` over the integers, as a list. -/
def intRange (a b : ℤ) : List ℤ :=
  (List.range (b - a).toNat).map (fun n : ℕ => a + (n : ℤ))

/-- The source indices enumerated by the resampling loops on one axis:
`range(x_start, x_end)`. -/
def enumWindow (srcDim dstDim i : ℕ) : List ℤ :=
  intRange (winStart srcDim dstDim i) (winEnd srcDim dstDim i)

/-- The 1-D kernel evaluation at the axis-normalized distance:
`lanczos_kernel((s - c) / scale)`.  The kernel itself is a parameter
`k`, standing for `lanczos_kernel` (whose transcendental sine-based
values are irrelevant to the structural claims below). -/
def axisWeight (k : ℚ → ℚ) (srcDim dstDim i : ℕ) (s : ℤ) : ℚ :=
  k (((s : ℚ) - centerQ srcDim dstDim i) / scaleQ srcDim dstDim)

/-- Byte at channel `c` of source pixel `(sx, sy)`:
`src[(sy * sw + sx) * 4 + c]`.  The source buffer is modelled as the
function from flat byte index to byte value. -/
def srcByte (src : ℕ → ℕ) (sw : ℕ) (sx sy : ℤ) (c : ℕ) : ℕ :=
  src ((sy.toNat * sw + sx.toNat) * 4 + c)

/-- The per-channel weighted accumulation of the resampling stage:
`accum[c] += src[si + c] * (wx * wy)` over the enumerated window. -/
def accumC (k : ℚ → ℚ) (src : ℕ → ℕ) (sw sh dw dh dx dy c : ℕ) : ℚ :=
  ((enumWindow sh dh dy).map (fun sy =>
    ((enumWindow sw dw dx).map (fun sx =>
      axisWeight k sw dw dx sx * axisWeight k sh dh dy sy *
        (srcByte src sw sx sy c : ℚ))).sum)).sum

/-- `weight_sum += wx * wy` over the enumerated window. -/
def weightSum (k : ℚ → ℚ) (sw sh dw dh dx dy : ℕ) : ℚ :=
  ((enumWindow sh dh dy).map (fun sy =>
    ((enumWindow sw dw dx).map (fun sx =>
      axisWeight k sw dw dx sx * axisWeight k sh dh dy sy)).sum)).sum

/-- `max(0, min(255, z))`, then back to a byte. -/
def clampByte (z : ℤ) : ℕ :=
  (max 0 (min 255 z)).toNat

/-- Channel `c` of destination pixel `(dx, dy)` of the `temp` buffer:
the accumulated sums divided by the total weight when it is positive,
clamped and truncated; bytes stay zero (the bytearray initial value)
when the total weight is not positive. -/
def tempPix (k : ℚ → ℚ) (src : ℕ → ℕ) (sw sh dw dh dx dy c : ℕ) : ℕ :=
  if 0 < weightSum k sw sh dw dh dx dy then
    clampByte (pyTrunc (accumC k src sw sh dw dh dx dy c /
      weightSum k sw sh dw dh dx dy))
  else 0

/-- The neighbourhood offsets `range(-1, 2)` of the unsharp mask. -/
def nbOffsets : List ℤ := [-1, 0, 1]

/-- `max(0, min(dim - 1, v))`: clamp-to-edge neighbour indexing. -/
def clampIdx (dim : ℕ) (v : ℤ) : ℕ :=
  (max 0 (min ((dim : ℤ) - 1) v)).toNat

/-- `kernel_weight = 1.0 if (ox == 0 and oy == 0) else 0.5`. -/
def nbWeight (oy ox : ℤ) : ℚ :=
  if ox = 0 ∧ oy = 0 then 1 else 1 / 2

/-- The weighted neighbourhood sum `blur[c]` (before normalization)
over the 3×3 clamp-to-edge neighbourhood of `(dx, dy)` in a buffer
`T : x → y → channel → byte`. -/
def blurNum (T : ℕ → ℕ → ℕ → ℕ) (dw dh dx dy c : ℕ) : ℚ :=
  (nbOffsets.map (fun oy =>
    (nbOffsets.map (fun ox =>
      nbWeight oy ox *
        (T (clampIdx dw ((dx : ℤ) + ox)) (clampIdx dh ((dy : ℤ) + oy)) c : ℚ))).sum)).sum

/-- The accumulated `count` of the unsharp mask (independent of the
pixel position because neighbours are clamped, never skipped). -/
def blurCount : ℚ :=
  (nbOffsets.map (fun oy => (nbOffsets.map (fun ox => nbWeight oy ox)).sum)).sum

/-- `blur[c] /= count`. -/
def blurC (T : ℕ → ℕ → ℕ → ℕ) (dw dh dx dy c : ℕ) : ℚ :=
  blurNum T dw dh dx dy c / blurCount

/-- Channel `c` of destination pixel `(dx, dy)` of the `dst` buffer:
the unsharp-mask stage.  For the three color channels,
`detail = original - blur`; when `abs(detail) > 10` the output is
`clamp(original + detail * 0.8)`, otherwise the original; channel 3
(alpha) is copied unmodified from `temp`. -/
def sharpenPix (T : ℕ → ℕ → ℕ → ℕ) (dw dh dx dy c : ℕ) : ℕ :=
  if c = 3 then T dx dy 3
  else if 10 < |(T dx dy c : ℚ) - blurC T dw dh dx dy c| then
    clampByte (pyTrunc ((T dx dy c : ℚ) +
      ((T dx dy c : ℚ) - blurC T dw dh dx dy c) * (4 / 5)))
  else T dx dy c

/-- Channel `c` of destination pixel `(dx, dy)` of
`downsample(src, sw, sh, dw, dh)`: the identity fast path when the
sizes match, otherwise resampling followed by the unsharp mask. -/
def downsamplePix (k : ℚ → ℚ) (src : ℕ → ℕ) (sw sh dw dh dx dy c : ℕ) : ℕ :=
  if sw = dw ∧ sh = dh then srcByte src sw (dx : ℤ) (dy : ℤ) c
  else sharpenPix (fun x y ch => tempPix k src sw sh dw dh x y ch) dw dh dx dy c

/-- Modelled from the spec's words for claim C2: a source index lies
in "a window of radius a=3 scaled by sx/sy around the continuous
source coordinate, clamped to buffer bounds". -/
def specWindow (srcDim dstDim i : ℕ) (s : ℤ) : Prop :=
  0 ≤ s ∧ s < (srcDim : ℤ) ∧
    |(s : ℚ) - centerQ srcDim dstDim i| ≤ 3 * scaleQ srcDim dstDim

instance (srcDim dstDim i : ℕ) (s : ℤ) : Decidable (specWindow srcDim dstDim i s) := by
  unfold specWindow
  infer_instance

/-- The source indices the code actually enumerates on one axis. -/
def inCodeWindow (srcDim dstDim i : ℕ) (s : ℤ) : Prop :=
  s ∈ enumWindow srcDim dstDim i

instance (srcDim dstDim i : ℕ) (s : ℤ) : Decidable (inCodeWindow srcDim dstDim i s) := by
  unfold inCodeWindow
  infer_instance

theorem mem_intRange {a b s : ℤ} : s ∈ intRange a b ↔ a ≤ s ∧ s < b := by
  unfold intRange
  constructor
  · intro hmem
    rcases List.mem_map.mp hmem with ⟨n, hn, hs⟩
    rw [List.mem_range] at hn
    omega
  · intro h
    apply List.mem_map.mpr
    refine ⟨(s - a).toNat, ?_, ?_⟩
    · rw [List.mem_range]
      omega
    · omega

/-- Auxiliary: `pyTrunc` of a negative rational as a negated floor. -/
theorem pyTrunc_of_neg_floor {q : ℚ} (h : q < 0) : pyTrunc q = -⌊-q⌋ := by
  rw [pyTrunc_of_neg h, Int.floor_neg]
  ring

/-- Claim C2, counterexample: downscaling 100 source rows to 50
destination rows (scale 2), destination row 0 has continuous source
coordinate `cy = 0.5`.  The spec's window of radius `3 * sy = 6`
contains source row 4 (normalized distance 3.5 / 2 < 3, inside the
kernel support), but the code enumerates only
`range(max(0, int(0.5 - 3)), min(100, int(0.5 + 3) + 1)) = range(0, 4)`
— the resampling stage does not accumulate every source pixel of the
scaled window. -/
theorem c2_counterexample :
    specWindow 100 50 0 4 ∧ ¬ inCodeWindow 100 50 0 4 := by
  have hc : centerQ 100 50 0 = 1 / 2 := by
    unfold centerQ scaleQ
    norm_num
  constructor
  · refine ⟨by norm_num, by norm_num, ?_⟩
    rw [hc]
    unfold scaleQ
    push_cast
    rw [abs_of_nonneg (by norm_num)]
    norm_num
  · have hs : winStart 100 50 0 = 0 := by
      unfold winStart
      rw [hc]
      have h1 : (1 / 2 : ℚ) - 3 = -(5 / 2) := by norm_num
      rw [h1, pyTrunc_of_neg_floor (by norm_num), neg_neg]
      have h2 : ⌊(5 / 2 : ℚ)⌋ = 2 := by norm_num
      rw [h2]
      omega
    have he : winEnd 100 50 0 = 4 := by
      unfold winEnd
      rw [hc]
      have h1 : (1 / 2 : ℚ) + 3 = 7 / 2 := by norm_num
      rw [h1, pyTrunc_of_nonneg (by norm_num)]
      have h2 : ⌊(7 / 2 : ℚ)⌋ = 3 := by norm_num
      rw [h2]
      omega
    unfold inCodeWindow enumWindow
    rw [hs, he, mem_intRange]
    omega

/-- Claim C2 (amended): on each axis the resampling stage enumerates
exactly the in-bounds source indices of an unscaled window of radius 3
source pixels around the continuous source coordinate —
`range(max(0, int(c - 3)), min(dim, int(c + 3) + 1))` — not of radius
`3 * scale`; each enumerated pixel is weighted by the product of two
1-D kernel evaluations at the axis-normalized distances and the
per-channel sums are divided by the total weight when positive (the
accumulation `accumC`/`weightSum`/`tempPix` below). -/
theorem c2_amended (srcDim dstDim i : ℕ) (s : ℤ) :
    inCodeWindow srcDim dstDim i s ↔
      0 ≤ s ∧ s < (srcDim : ℤ) ∧
        pyTrunc (centerQ srcDim dstDim i - 3) ≤ s ∧
        s ≤ pyTrunc (centerQ srcDim dstDim i + 3) := by
  unfold inCodeWindow enumWindow
  rw [mem_intRange]
  unfold winStart winEnd
  rw [max_le_iff, lt_min_iff, Int.lt_add_one_iff]
  tauto

/-- Auxiliary: the clamp-to-edge neighbour index stays inside the
buffer. -/
theorem clampIdx_lt {dim : ℕ} (h : 0 < dim) (v : ℤ) : clampIdx dim v < dim := by
  unfold clampIdx
  omega

/-- Auxiliary: clamping a byte-ranged value is the identity. -/
theorem clampByte_of_byte {n : ℕ} (h : n ≤ 255) : clampByte (n : ℤ) = n := by
  unfold clampByte
  omega

/-- Auxiliary: the accumulated unsharp-mask `count` is 5. -/
theorem blurCount_eq : blurCount = 5 := by
  unfold blurCount nbOffsets nbWeight
  norm_num

/-- Auxiliary: a uniform BGRA buffer reads back its channel color at
every pixel. -/
theorem srcByte_uniform (color : ℕ → ℕ) (sw : ℕ) (sx sy : ℤ) {j : ℕ} (hj : j < 4) :
    srcByte (fun idx => color (idx % 4)) sw sx sy j = color j := by
  unfold srcByte
  have harg : ((sy.toNat * sw + sx.toNat) * 4 + j) % 4 = j := by omega
  exact congrArg color harg

/-- Auxiliary: on a uniform buffer the per-channel accumulation is the
channel color times the total weight. -/
theorem accumC_uniform (k : ℚ → ℚ) (color : ℕ → ℕ) (sw sh dw dh dx dy : ℕ)
    {j : ℕ} (hj : j < 4) :
    accumC k (fun idx => color (idx % 4)) sw sh dw dh dx dy j
      = (color j : ℚ) * weightSum k sw sh dw dh dx dy := by
  unfold accumC weightSum
  have hinner : ∀ sy : ℤ,
      ((enumWindow sw dw dx).map (fun sx =>
        axisWeight k sw dw dx sx * axisWeight k sh dh dy sy *
          (srcByte (fun idx => color (idx % 4)) sw sx sy j : ℚ))).sum
      = ((enumWindow sw dw dx).map (fun sx =>
          axisWeight k sw dw dx sx * axisWeight k sh dh dy sy)).sum * (color j : ℚ) := by
    intro sy
    rw [← List.sum_map_mul_right]
    apply congrArg
    apply List.map_congr_left
    intro sx _
    rw [srcByte_uniform color sw sx sy hj]
  have houter : (enumWindow sh dh dy).map (fun sy =>
        ((enumWindow sw dw dx).map (fun sx =>
          axisWeight k sw dw dx sx * axisWeight k sh dh dy sy *
            (srcByte (fun idx => color (idx % 4)) sw sx sy j : ℚ))).sum)
      = (enumWindow sh dh dy).map (fun sy =>
        ((enumWindow sw dw dx).map (fun sx =>
          axisWeight k sw dw dx sx * axisWeight k sh dh dy sy)).sum * (color j : ℚ)) :=
    List.map_congr_left (fun sy _ => hinner sy)
  rw [houter, List.sum_map_mul_right, mul_comm]

/-- Auxiliary: on a uniform buffer, every resampled pixel with
positive total weight reproduces the channel color exactly. -/
theorem tempPix_uniform (k : ℚ → ℚ) (color : ℕ → ℕ) (sw sh dw dh x y : ℕ)
    {j : ℕ} (hj : j < 4) (hcolor : color j ≤ 255)
    (hpos : 0 < weightSum k sw sh dw dh x y) :
    tempPix k (fun idx => color (idx % 4)) sw sh dw dh x y j = color j := by
  unfold tempPix
  rw [if_pos hpos, accumC_uniform k color sw sh dw dh x y hj,
    mul_div_cancel_right₀ _ (ne_of_gt hpos), pyTrunc_natCast,
    clampByte_of_byte hcolor]

/-- Claim C8: downsampling a uniform-color BGRA buffer yields the same
uniform color at every destination pixel and channel: the resampling
stage reproduces the color exactly (for any kernel, wherever the total
weight is positive — the spec's own caveat for degenerate scales), the
unsharp-mask stage leaves the flat result unchanged (zero detail is
below the threshold), and the alpha channel passes through
unmodified. -/
theorem c8_uniform_preserved (k : ℚ → ℚ) (color : ℕ → ℕ)
    (sw sh dw dh dx dy c : ℕ)
    (hdw : 0 < dw) (hdh : 0 < dh) (hdx : dx < dw) (hdy : dy < dh) (hc : c < 4)
    (hcolor : ∀ j, j < 4 → color j ≤ 255)
    (hpos : ∀ x y, x < dw → y < dh → 0 < weightSum k sw sh dw dh x y) :
    downsamplePix k (fun idx => color (idx % 4)) sw sh dw dh dx dy c = color c := by
  have htemp : ∀ x y, x < dw → y < dh → ∀ j, j < 4 →
      tempPix k (fun idx => color (idx % 4)) sw sh dw dh x y j = color j := by
    intro x y hx hy j hj
    exact tempPix_uniform k color sw sh dw dh x y hj (hcolor j hj) (hpos x y hx hy)
  unfold downsamplePix
  by_cases hid : sw = dw ∧ sh = dh
  · rw [if_pos hid]
    exact srcByte_uniform color sw (dx : ℤ) (dy : ℤ) hc
  · rw [if_neg hid]
    unfold sharpenPix
    by_cases hc3 : c = 3
    · rw [if_pos hc3, hc3]
      exact htemp dx dy hdx hdy 3 (by norm_num)
    · rw [if_neg hc3]
      have hblur : blurC (fun x y ch =>
          tempPix k (fun idx => color (idx % 4)) sw sh dw dh x y ch) dw dh dx dy c
          = (color c : ℚ) := by
        unfold blurC blurNum
        beta_reduce
        have hinner : ∀ oy : ℤ,
            (nbOffsets.map (fun ox =>
              nbWeight oy ox *
                (tempPix k (fun idx => color (idx % 4)) sw sh dw dh
                  (clampIdx dw ((dx : ℤ) + ox)) (clampIdx dh ((dy : ℤ) + oy)) c : ℚ))).sum
            = (nbOffsets.map (fun ox => nbWeight oy ox)).sum * (color c : ℚ) := by
          intro oy
          rw [← List.sum_map_mul_right]
          apply congrArg
          apply List.map_congr_left
          intro ox _
          rw [htemp (clampIdx dw ((dx : ℤ) + ox)) (clampIdx dh ((dy : ℤ) + oy))
            (clampIdx_lt hdw _) (clampIdx_lt hdh _) c hc]
        have houter : nbOffsets.map (fun oy =>
              (nbOffsets.map (fun ox =>
                nbWeight oy ox *
                  (tempPix k (fun idx => color (idx % 4)) sw sh dw dh
                    (clampIdx dw ((dx : ℤ) + ox)) (clampIdx dh ((dy : ℤ) + oy)) c : ℚ))).sum)
            = nbOffsets.map (fun oy =>
                (nbOffsets.map (fun ox => nbWeight oy ox)).sum * (color c : ℚ)) :=
          List.map_congr_left (fun oy _ => hinner oy)
        rw [houter, List.sum_map_mul_right]
        have hcount : (nbOffsets.map (fun oy => (nbOffsets.map (fun ox => nbWeight oy ox)).sum)).sum
            = blurCount := rfl
        rw [hcount, blurCount_eq, mul_comm, mul_div_assoc]
        norm_num
      beta_reduce
      rw [htemp dx dy hdx hdy c hc, hblur, sub_self, abs_zero,
        if_neg (by norm_num)]

/-- Claim C8, witness: a uniform 2×2 buffer with channel values
(40, 41, 42, 43) downsampled to 1×1 (with a concrete kernel whose
window weights are positive) reproduces its color channel and its
alpha channel exactly. -/
theorem c8_uniform_preserved_witness :
    downsamplePix (fun _ => (1 : ℚ)) (fun idx => 40 + idx % 4) 2 2 1 1 0 0 0 = 40 ∧
    downsamplePix (fun _ => (1 : ℚ)) (fun idx => 40 + idx % 4) 2 2 1 1 0 0 3 = 43 := by
  have hpos : ∀ x y, x < 1 → y < 1 → 0 < weightSum (fun _ => (1 : ℚ)) 2 2 1 1 x y := by
    intro x y hx hy
    have hx0 : x = 0 := by omega
    have hy0 : y = 0 := by omega
    subst hx0
    subst hy0
    have hwin : enumWindow 2 1 0 = [0, 1] := by
      unfold enumWindow
      have hcc : centerQ 2 1 0 = 1 / 2 := by
        unfold centerQ scaleQ
        norm_num
      have hs : winStart 2 1 0 = 0 := by
        unfold winStart
        rw [hcc]
        have h1 : (1 / 2 : ℚ) - 3 = -(5 / 2) := by norm_num
        rw [h1, pyTrunc_of_neg_floor (by norm_num), neg_neg]
        have h2 : ⌊(5 / 2 : ℚ)⌋ = 2 := by norm_num
        rw [h2]
        omega
      have he : winEnd 2 1 0 = 2 := by
        unfold winEnd
        rw [hcc]
        have h1 : (1 / 2 : ℚ) + 3 = 7 / 2 := by norm_num
        rw [h1, pyTrunc_of_nonneg (by norm_num)]
        have h2 : ⌊(7 / 2 : ℚ)⌋ = 3 := by norm_num
        rw [h2]
        omega
      rw [hs, he]
      rfl
    unfold weightSum axisWeight
    rw [hwin]
    norm_num
  constructor
  · exact c8_uniform_preserved (fun _ => (1 : ℚ)) (fun j => 40 + j) 2 2 1 1 0 0 0
      (by norm_num) (by norm_num) (by norm_num) (by norm_num) (by norm_num)
      (fun j hj => by show 40 + j ≤ 255; omega) hpos
  · exact c8_uniform_preserved (fun _ => (1 : ℚ)) (fun j => 40 + j) 2 2 1 1 0 0 3
      (by norm_num) (by norm_num) (by norm_num) (by norm_num) (by norm_num)
      (fun j hj => by show 40 + j ≤ 255; omega) hpos
